import Mathlib


/-!
Shallow embedding of the beat-synchronized transform-animation engine:
`src/utils/BezierEasing.js` (cubic-bezier easing evaluator) and
`src/entities/MovingPlatform.js` (the transform animator / state machine).

JS numbers are modelled as rationals (`ℚ`); all source arithmetic here is
exact (additions, multiplications, divisions), so `ℚ` is faithful except for
floating-point rounding, which no claim depends on.  JS `undefined`/missing
fields are modelled with `Option`; a JS runtime crash (property access on
`undefined`) is modelled by an `Option` result of the operation.
-/

/-! ## BezierEasing.js -/

/-- `calcBezier(t, a, b, c)` from `BezierEasing.js`: `((a*t + b)*t + c)*t`. -/
def calcBezier (t a b c : ℚ) : ℚ :=
  ((a * t + b) * t + c) * t

/-- `getSlope(t, a, b, c)` from `BezierEasing.js`: `3*a*t² + 2*b*t + c`. -/
def getSlope (t a b c : ℚ) : ℚ :=
  3 * a * t * t + 2 * b * t + c

/-- The Newton–Raphson loop body of `getTForX`: `n` remaining iterations,
current iterate `t`; `break` on a zero slope is modelled by returning `t`. -/
def newtonLoop (ax bx cx x : ℚ) : Nat → ℚ → ℚ
  | 0, t => t
  | n + 1, t =>
    let slope := getSlope t ax bx cx
    if slope = 0 then t
    else newtonLoop ax bx cx x n (t - (calcBezier t ax bx cx - x) / slope)

/-- `getTForX(x)` from `BezierEasing.js`: 8 Newton–Raphson iterations seeded
at `t = x`. -/
def getTForX (ax bx cx x : ℚ) : ℚ :=
  newtonLoop ax bx cx x 8 x

/-- `Math.max(0, Math.min(1, v))`. -/
def clamp01 (v : ℚ) : ℚ :=
  max 0 (min 1 v)

/-- `cubicBezier(x1, y1, x2, y2)` from `BezierEasing.js`: validates/clamps the
x control points, precomputes the polynomial coefficients, and returns the
easing function.  The returned function short-circuits `t = 0 ↦ 0` and
`t = 1 ↦ 1`, and otherwise solves x for the curve parameter and evaluates y. -/
def cubicBezier (x1 y1 x2 y2 : ℚ) : ℚ → ℚ :=
  let bad := x1 < 0 ∨ x1 > 1 ∨ x2 < 0 ∨ x2 > 1
  let x1c := if bad then clamp01 x1 else x1
  let x2c := if bad then clamp01 x2 else x2
  let cx := 3 * x1c
  let bx := 3 * (x2c - x1c) - cx
  let ax := 1 - cx - bx
  let cy := 3 * y1
  let bY := 3 * (y2 - y1) - cy
  let ay := 1 - cy - bY
  fun t =>
    if t = 0 then 0
    else if t = 1 then 1
    else calcBezier (getTForX ax bx cx t) ay bY cy

/-- The OWN properties of the `Easings` object literal of `BezierEasing.js`.
`none` means the object itself has no such property — an indexed read
`Easings[name]` may still find an inherited `Object.prototype` property; the
full lookup is `easingsGet` below. -/
def easingsCatalog : String → Option (ℚ → ℚ)
  | "linear" => some (cubicBezier 0 0 1 1)
  | "easeIn" => some (cubicBezier (42/100) 0 1 1)
  | "easeOut" => some (cubicBezier 0 0 (58/100) 1)
  | "easeInOut" => some (cubicBezier (42/100) 0 (58/100) 1)
  | "easeInQuad" => some (cubicBezier (55/100) (85/1000) (68/100) (53/100))
  | "easeOutQuad" => some (cubicBezier (25/100) (46/100) (45/100) (94/100))
  | "easeInOutQuad" => some (cubicBezier (455/1000) (3/100) (515/1000) (955/1000))
  | "easeInCubic" => some (cubicBezier (55/100) (55/1000) (675/1000) (19/100))
  | "easeOutCubic" => some (cubicBezier (215/1000) (61/100) (355/1000) 1)
  | "easeInOutCubic" => some (cubicBezier (645/1000) (45/1000) (355/1000) 1)
  | "easeInQuart" => some (cubicBezier (895/1000) (3/100) (685/1000) (22/100))
  | "easeOutQuart" => some (cubicBezier (165/1000) (84/100) (44/100) 1)
  | "easeInOutQuart" => some (cubicBezier (77/100) 0 (175/1000) 1)
  | "easeInBack" => some (cubicBezier (6/10) (-28/100) (735/1000) (45/1000))
  | "easeOutBack" => some (cubicBezier (175/1000) (885/1000) (32/100) (1275/1000))
  | "easeInOutBack" => some (cubicBezier (68/100) (-55/100) (265/1000) (155/100))
  | _ => none

/-- `Easings.easeOutQuart`, the designated default curve. -/
def easeOutQuartE : ℚ → ℚ :=
  cubicBezier (165/1000) (84/100) (44/100) 1

/-- The possible JS values reaching `getEasing`: a falsy value (`undefined`,
`null`, `""`, `0`, …), a non-empty string, an array of numbers, or any other
truthy non-string non-array value (e.g. an object). -/
inductive EasingArg where
  | nullE : EasingArg
  | strE : String → EasingArg
  | arrE : List ℚ → EasingArg
  | otherE : EasingArg
deriving DecidableEq

/-- JS truthiness of an `EasingArg` (`nullE` collects all falsy values; a
string is truthy iff non-empty; arrays and objects are truthy). -/
def EasingArg.truthy : EasingArg → Bool
  | .nullE => false
  | .strE s => s ≠ ""
  | .arrE _ => true
  | .otherE => true

/-- The function- or object-valued properties every plain object literal
inherits from `Object.prototype`: an indexed read `Easings[name]` on any of
these names yields the inherited value, which is truthy, not `undefined`. -/
def objectProtoKeys : List String :=
  ["constructor", "hasOwnProperty", "isPrototypeOf", "propertyIsEnumerable",
   "toLocaleString", "toString", "valueOf", "__defineGetter__",
   "__defineSetter__", "__lookupGetter__", "__lookupSetter__", "__proto__"]

/-- A function value produced by the easings lookup: either a genuine easing
function (an own catalog property or a constructed custom curve), or a value
inherited from `Object.prototype`, identified by its property key.  An
inherited value is not an easing: calling it does not return a number, so it
has no `ℚ → ℚ` graph in this model. -/
inductive EasingFnVal where
  | easingFn : (ℚ → ℚ) → EasingFnVal
  | protoFn : String → EasingFnVal

/-- The indexed read `Easings[name]`: an own catalog entry when present,
otherwise the inherited `Object.prototype` property for prototype keys,
otherwise `undefined` (`none`). -/
def easingsGet (s : String) : Option EasingFnVal :=
  match easingsCatalog s with
  | some f => some (.easingFn f)
  | none => if s ∈ objectProtoKeys then some (.protoFn s) else none

/-- `getEasing(easing)` from `BezierEasing.js`: falsy → default; string → the
truthy result of the indexed read `Easings[easing]` (which, for
`Object.prototype` keys, is the inherited function, returned verbatim), with
the default for an `undefined` read; 4-element array → custom curve; anything
else → default.  Total: the source never throws here. -/
def getEasing : EasingArg → EasingFnVal
  | .nullE => .easingFn easeOutQuartE
  | .strE s =>
    if s = "" then .easingFn easeOutQuartE
    else
      match easingsGet s with
      | some v => v
      | none => .easingFn easeOutQuartE
  | .arrE l =>
    match l with
    | [a, b, c, d] => .easingFn (cubicBezier a b c d)
    | _ => .easingFn easeOutQuartE
  | .otherE => .easingFn easeOutQuartE

/-- The numeric-fragment restriction of `getEasing`, used by the animator
embedding below.  It agrees with `getEasing` whenever the resolved value is a
genuine easing function (`getEasingNumeric_agree`).  On an `Object.prototype`
key the source stores the inherited function and every numeric use of its
result is `NaN`, a value outside the rational fragment of this model; the
restriction substitutes the default curve there, and no theorem below
evaluates an easing resolved from such a key. -/
def getEasingNumeric (a : EasingArg) : ℚ → ℚ :=
  match getEasing a with
  | .easingFn f => f
  | .protoFn _ => easeOutQuartE

/-! ## MovingPlatform.js : configuration data model -/

/-- A fully-resolved 3-axis vector. -/
structure V3 where
  x : ℚ
  y : ℚ
  z : ℚ
deriving DecidableEq

/-- A partially-specified 3-axis vector as it appears in configuration
(`{x?, y?, z?}`). -/
structure PartialV3 where
  x : Option ℚ := none
  y : Option ℚ := none
  z : Option ℚ := none
deriving DecidableEq

/-- A fully-resolved pose: translate/scale/rotate plus the discrete color
index (`none` models JS `null`). -/
structure Pose where
  translate : V3
  scale : V3
  rotate : V3
  colorIndex : Option ℤ
deriving DecidableEq

/-- The transform part of a pose, as produced by `interpolateStates` (note:
the source's interpolation result carries no `colorIndex` field at all). -/
structure TransformPose where
  translate : V3
  scale : V3
  rotate : V3
deriving DecidableEq

/-- The transform part of a `Pose`. -/
def Pose.transforms (p : Pose) : TransformPose :=
  ⟨p.translate, p.scale, p.rotate⟩

/-- The `states.startState` configuration record: each transform is an
optional partial vector; `colorIndex` is optionally present, and when present
holds `null` or an integer. -/
structure StartStateSpec where
  translate : Option PartialV3 := none
  scale : Option PartialV3 := none
  rotate : Option PartialV3 := none
  colorIndex : Option (Option ℤ) := none
deriving DecidableEq

/-- A `transforms` record of one transition definition. -/
structure TransformsSpec where
  translate : Option PartialV3 := none
  scale : Option PartialV3 := none
  rotate : Option PartialV3 := none
  colorIndex : Option (Option ℤ) := none
deriving DecidableEq

/-- The `easing` field of a transition definition: absent, a direct value
(string/array/other), or a per-type record `{translate?, scale?, rotate?}`. -/
inductive EasingSpecJS where
  | absent : EasingSpecJS
  | direct : EasingArg → EasingSpecJS
  | record : Option EasingArg → Option EasingArg → Option EasingArg → EasingSpecJS
deriving DecidableEq

/-- One entry of `states.transitions` in the configuration. -/
structure TransitionSpec where
  beats : Option ℚ := none
  easing : EasingSpecJS := .absent
  transforms : Option TransformsSpec := none

/-- The three per-transform-type easing functions of a parsed transition. -/
structure Easings3 where
  translate : ℚ → ℚ
  scale : ℚ → ℚ
  rotate : ℚ → ℚ

/-- One parsed transition, as produced by `parseTransitions`. -/
structure Transition where
  duration : ℚ
  targetState : Pose
  easings : Easings3

/-! ## MovingPlatform.js : construction -/

/-- Object spread `{ ...base, ...override }` where `base` is a full vector and
`override` an optional partial one: a present axis overrides, an absent axis
keeps the base value. -/
def mergeV3 (base : V3) (override : Option PartialV3) : V3 :=
  match override with
  | none => base
  | some p => ⟨p.x.getD base.x, p.y.getD base.y, p.z.getD base.z⟩

/-- Resolution of `this.startState` in the constructor: every missing axis
defaults (`0` for translate/rotate, `1` for scale), `colorIndex ?? null`. -/
def resolveStartState (s : Option StartStateSpec) : Pose where
  translate :=
    ⟨((s.bind (·.translate)).bind (·.x)).getD 0,
     ((s.bind (·.translate)).bind (·.y)).getD 0,
     ((s.bind (·.translate)).bind (·.z)).getD 0⟩
  scale :=
    ⟨((s.bind (·.scale)).bind (·.x)).getD 1,
     ((s.bind (·.scale)).bind (·.y)).getD 1,
     ((s.bind (·.scale)).bind (·.z)).getD 1⟩
  rotate :=
    ⟨((s.bind (·.rotate)).bind (·.x)).getD 0,
     ((s.bind (·.rotate)).bind (·.y)).getD 0,
     ((s.bind (·.rotate)).bind (·.z)).getD 0⟩
  colorIndex := (s.bind (·.colorIndex)).getD none

/-- `x || y` for an `EasingArg` operand, as used in
`def.easing?.translate || def.easing || 'easeOutQuart'`. -/
def orElseE (a : EasingArg) (b : EasingArg) : EasingArg :=
  if a.truthy then a else b

/-- Resolution of one per-type easing in `parseTransitions`:
`getEasing(def.easing?.FIELD || def.easing || 'easeOutQuart')`.  When
`def.easing` is a per-type record, `def.easing?.FIELD` is the field when
present, and the fallback `def.easing` is the record object itself — a truthy
non-string non-array value (`EasingArg.otherE`). -/
def resolveEasing (e : EasingSpecJS) (field : EasingSpecJS → Option EasingArg) : ℚ → ℚ :=
  match e with
  | .absent => getEasingNumeric (orElseE .nullE (.strE "easeOutQuart"))
  | .direct a => getEasingNumeric (orElseE .nullE (orElseE a (.strE "easeOutQuart")))
  | r =>
    match field r with
    | some a => getEasingNumeric (orElseE a (orElseE .otherE (.strE "easeOutQuart")))
    | none => getEasingNumeric (orElseE .nullE (orElseE .otherE (.strE "easeOutQuart")))

/-- Field accessors for the per-type easing record. -/
def easingFieldTranslate : EasingSpecJS → Option EasingArg
  | .record t _ _ => t
  | _ => none

def easingFieldScale : EasingSpecJS → Option EasingArg
  | .record _ s _ => s
  | _ => none

def easingFieldRotate : EasingSpecJS → Option EasingArg
  | .record _ _ r => r
  | _ => none

/-- One step of `parseTransitions` over the transition list, threading the
mutable `currentColorIndex` closure variable as an accumulator.  Faithful to
the source: the transform part of every `targetState` merges the definition's
partial overrides onto `startState` (the comment in the source says "relative
to start state"), while `colorIndex` is a running value updated whenever
`def.transforms?.colorIndex !== undefined`. -/
def parseTransitionsGo (startState : Pose) (secondsPerBeat : ℚ) :
    Option ℤ → List TransitionSpec → List Transition
  | _, [] => []
  | cci, d :: rest =>
    let duration := (match d.beats with
      | none => 1
      | some b => if b = 0 then 1 else b) * secondsPerBeat
    let cci := match d.transforms.bind (·.colorIndex) with
      | none => cci
      | some v => v
    let targetState : Pose :=
      { translate := mergeV3 startState.translate (d.transforms.bind (·.translate))
        scale := mergeV3 startState.scale (d.transforms.bind (·.scale))
        rotate := mergeV3 startState.rotate (d.transforms.bind (·.rotate))
        colorIndex := cci }
    let easings : Easings3 :=
      { translate := resolveEasing d.easing easingFieldTranslate
        scale := resolveEasing d.easing easingFieldScale
        rotate := resolveEasing d.easing easingFieldRotate }
    ⟨duration, targetState, easings⟩ :: parseTransitionsGo startState secondsPerBeat cci rest

/-- `parseTransitions(transitionDefs)`: the running color index starts at
`this.startState.colorIndex`. -/
def parseTransitions (startState : Pose) (secondsPerBeat : ℚ)
    (defs : List TransitionSpec) : List Transition :=
  parseTransitionsGo startState secondsPerBeat startState.colorIndex defs

/-! ## MovingPlatform.js : mesh state, interpolation and update -/

/-- An RGB color with channels in `[0,1]`, as set by `material.color.setRGB`. -/
structure RGB where
  r : ℚ
  g : ℚ
  b : ℚ
deriving DecidableEq

/-- The mesh transform state mutated by `applyState`. -/
structure Mesh where
  position : V3
  scale : V3
  rotation : V3
deriving DecidableEq

/-- `applyState(state)`: mesh position is `basePosition` plus the state's
translate; scale and rotation are taken directly. -/
def applyState (basePosition : V3) (state : TransformPose) : Mesh where
  position :=
    ⟨basePosition.x + state.translate.x,
     basePosition.y + state.translate.y,
     basePosition.z + state.translate.z⟩
  scale := state.scale
  rotation := state.rotate

/-- `interpolateStates(fromState, toState, progress, easings)`: linear
interpolation per axis in the eased parameter, one eased value per transform
type.  The eased values are used unclamped, and the result has no color
field. -/
def interpolateStates (fromState toState : Pose) (progress : ℚ)
    (easings : Easings3) : TransformPose :=
  let tEase := easings.translate progress
  let sEase := easings.scale progress
  let rEase := easings.rotate progress
  { translate :=
      ⟨fromState.translate.x + (toState.translate.x - fromState.translate.x) * tEase,
       fromState.translate.y + (toState.translate.y - fromState.translate.y) * tEase,
       fromState.translate.z + (toState.translate.z - fromState.translate.z) * tEase⟩
    scale :=
      ⟨fromState.scale.x + (toState.scale.x - fromState.scale.x) * sEase,
       fromState.scale.y + (toState.scale.y - fromState.scale.y) * sEase,
       fromState.scale.z + (toState.scale.z - fromState.scale.z) * sEase⟩
    rotate :=
      ⟨fromState.rotate.x + (toState.rotate.x - fromState.rotate.x) * rEase,
       fromState.rotate.y + (toState.rotate.y - fromState.rotate.y) * rEase,
       fromState.rotate.z + (toState.rotate.z - fromState.rotate.z) * rEase⟩ }

/-- `getColorFromPalette(index)`: `null` for a `null` index or an index out of
the palette's range, otherwise the palette entry split into RGB channels. -/
def getColorFromPalette (palette : List ℕ) (index : Option ℤ) : Option RGB :=
  match index with
  | none => none
  | some i =>
    if i < 0 ∨ (palette.length : ℤ) ≤ i then none
    else
      match palette[i.toNat]? with
      | none => none
      | some hex =>
        some ⟨(((hex >>> 16) &&& 255 : ℕ) : ℚ) / 255,
              (((hex >>> 8) &&& 255 : ℕ) : ℚ) / 255,
              ((hex &&& 255 : ℕ) : ℚ) / 255⟩

/-- The constructor options of `MovingPlatform` relevant to the animator. -/
structure AnimOptions where
  bpm : Option ℚ := none
  colorPalette : List ℕ := []
  startState : Option StartStateSpec := none
  transitions : List TransitionSpec := []

/-- The animator part of a `MovingPlatform` instance: configuration resolved
at construction plus the mutable state machine and the mesh it drives. -/
structure MovingPlatform where
  secondsPerBeat : ℚ
  colorPalette : List ℕ
  startState : Pose
  basePosition : V3
  transitions : List Transition
  currentTransitionIndex : ℕ
  transitionProgress : ℚ
  elapsedTime : ℚ
  currentState : Pose
  mesh : Mesh
  meshColor : Option RGB

/-- The `MovingPlatform` constructor: resolves `bpm || 120`,
`secondsPerBeat = 60/bpm`, the start state, and the transitions; initializes
the state machine at index 0, progress 0; applies the start state to the mesh
and, when the start state names a palette color, sets the material color.
`initialColor` is the material color inherited from `Platform`. -/
def constructPlatform (opts : AnimOptions) (basePosition : V3)
    (initialColor : Option RGB) : MovingPlatform :=
  let bpm := match opts.bpm with
    | none => 120
    | some b => if b = 0 then 120 else b
  let secondsPerBeat := 60 / bpm
  let startState := resolveStartState opts.startState
  let transitions := parseTransitions startState secondsPerBeat opts.transitions
  let meshColor :=
    if startState.colorIndex ≠ none ∧ opts.colorPalette.length > 0 then
      match getColorFromPalette opts.colorPalette startState.colorIndex with
      | some c => some c
      | none => initialColor
    else initialColor
  { secondsPerBeat
    colorPalette := opts.colorPalette
    startState
    basePosition
    transitions
    currentTransitionIndex := 0
    transitionProgress := 0
    elapsedTime := 0
    currentState := startState
    mesh := applyState basePosition startState.transforms
    meshColor }

/-- `update(delta)`: the per-frame state-machine step.  Returns `none` when
the source would crash on an out-of-range `this.transitions[...]` access
(never reached while the index invariant holds), `some` of the mutated
instance otherwise.  Mirrors the source: early return for an empty
transition list; accumulate progress; on completion reset progress to 0,
advance (and possibly wrap) the index, replace `currentState`, and apply the
next transition's target color instantly; finally interpolate and apply. -/
def update (p : MovingPlatform) (delta : ℚ) : Option MovingPlatform :=
  if p.transitions.length = 0 then
    some p
  else
    match p.transitions[p.currentTransitionIndex]? with
    | none => none
    | some currentTransition =>
      let elapsedTime := p.elapsedTime + delta
      let progressAccum := p.transitionProgress + delta / currentTransition.duration
      let completed := 1 ≤ progressAccum
      let transitionProgress := if completed then 0 else progressAccum
      let wrapped := p.transitions.length ≤ p.currentTransitionIndex + 1
      let currentTransitionIndex :=
        if completed then (if wrapped then 0 else p.currentTransitionIndex + 1)
        else p.currentTransitionIndex
      let currentState :=
        if completed then (if wrapped then p.startState else currentTransition.targetState)
        else p.currentState
      match p.transitions[currentTransitionIndex]? with
      | none => none
      | some nextTransition =>
        let meshColor :=
          if completed then
            if nextTransition.targetState.colorIndex ≠ none ∧ p.colorPalette.length > 0 then
              match getColorFromPalette p.colorPalette nextTransition.targetState.colorIndex with
              | some c => some c
              | none => p.meshColor
            else p.meshColor
          else p.meshColor
        let interpolatedState := interpolateStates currentState
          nextTransition.targetState transitionProgress nextTransition.easings
        some { p with
          elapsedTime
          transitionProgress
          currentTransitionIndex
          currentState
          meshColor
          mesh := applyState p.basePosition interpolatedState }

/-- A sequence of `update` calls, propagating a modelled crash. -/
def updates (p : MovingPlatform) : List ℚ → Option MovingPlatform
  | [] => some p
  | d :: ds =>
    match update p d with
    | none => none
    | some q => updates q ds

/-! ## Claims about the easing evaluator -/

/-- C3: for every easing curve produced by `cubicBezier` — in particular every
named catalog curve and any custom control points with `x1, x2 ∈ [0,1]` — the
evaluation function returns exactly `0` at `t = 0` and exactly `1` at `t = 1`,
short-circuiting before the numerical solver runs. -/
theorem C3_exact_endpoints (x1 y1 x2 y2 : ℚ)
    (hx1 : 0 ≤ x1 ∧ x1 ≤ 1) (hx2 : 0 ≤ x2 ∧ x2 ≤ 1) :
    cubicBezier x1 y1 x2 y2 0 = 0 ∧ cubicBezier x1 y1 x2 y2 1 = 1 :=
  ⟨rfl, rfl⟩

/-- Witness for C3 at the `easeOutQuart` control points. -/
theorem C3_exact_endpoints_witness :
    (0 ≤ (165/1000 : ℚ) ∧ (165/1000 : ℚ) ≤ 1) ∧
    (0 ≤ (44/100 : ℚ) ∧ (44/100 : ℚ) ≤ 1) ∧
    (cubicBezier (165/1000) (84/100) (44/100) 1 0 = 0 ∧
     cubicBezier (165/1000) (84/100) (44/100) 1 1 = 1) :=
  ⟨by norm_num, by norm_num,
   C3_exact_endpoints (165/1000) (84/100) (44/100) 1 (by norm_num) (by norm_num)⟩

/-- C6: interpolation is `from + (to − from) * easedT` independently per
transform type and axis, with the eased value taken as the easing function's
raw output; the eased value is propagated unclamped, so an overshoot curve
(here the custom curve `cubicBezier(1/3, 2, 2/3, 2)`, whose y control points
lie outside `[0,1]`) yields an interpolated axis value strictly outside
`[min(from,to), max(from,to)]` — from `0` toward `1` at progress `1/2` the
result is `13/8 > max 0 1`. -/
theorem C6_lerp_unclamped :
    (∀ (fromState toState : Pose) (progress : ℚ) (es : Easings3),
      let r := interpolateStates fromState toState progress es
      (r.translate.x = fromState.translate.x
          + (toState.translate.x - fromState.translate.x) * es.translate progress ∧
       r.translate.y = fromState.translate.y
          + (toState.translate.y - fromState.translate.y) * es.translate progress ∧
       r.translate.z = fromState.translate.z
          + (toState.translate.z - fromState.translate.z) * es.translate progress) ∧
      (r.scale.x = fromState.scale.x
          + (toState.scale.x - fromState.scale.x) * es.scale progress ∧
       r.scale.y = fromState.scale.y
          + (toState.scale.y - fromState.scale.y) * es.scale progress ∧
       r.scale.z = fromState.scale.z
          + (toState.scale.z - fromState.scale.z) * es.scale progress) ∧
      (r.rotate.x = fromState.rotate.x
          + (toState.rotate.x - fromState.rotate.x) * es.rotate progress ∧
       r.rotate.y = fromState.rotate.y
          + (toState.rotate.y - fromState.rotate.y) * es.rotate progress ∧
       r.rotate.z = fromState.rotate.z
          + (toState.rotate.z - fromState.rotate.z) * es.rotate progress)) ∧
    (let over := cubicBezier (1/3) 2 (2/3) 2
     let r := interpolateStates
       ⟨⟨0, 0, 0⟩, ⟨1, 1, 1⟩, ⟨0, 0, 0⟩, none⟩
       ⟨⟨1, 0, 0⟩, ⟨1, 1, 1⟩, ⟨0, 0, 0⟩, none⟩
       (1/2) ⟨over, over, over⟩
     r.translate.x = 13/8 ∧ max (0 : ℚ) 1 < r.translate.x) := by
  constructor
  · intro fromState toState progress es
    exact ⟨⟨rfl, rfl, rfl⟩, ⟨rfl, rfl, rfl⟩, ⟨rfl, rfl, rfl⟩⟩
  · refine ⟨?_, ?_⟩ <;>
      norm_num [interpolateStates, cubicBezier, getTForX, newtonLoop, calcBezier,
        getSlope, clamp01]

/-- The numeric restriction agrees with `getEasing` wherever the lookup
resolves to a genuine easing function. -/
theorem getEasingNumeric_agree (a : EasingArg) (f : ℚ → ℚ)
    (h : getEasing a = .easingFn f) : getEasingNumeric a = f := by
  simp [getEasingNumeric, h]

/-- C7 counterexample: `"toString"` is not a catalog name, yet
`getEasing("toString")` does not return the default curve `easeOutQuart` —
the indexed read `Easings["toString"]` finds the truthy function inherited
from `Object.prototype`, and the source returns that inherited function
verbatim. -/
theorem C7_inherited_lookup_counterexample :
    getEasing (.strE "toString") = .protoFn "toString" ∧
    getEasing (.strE "toString") ≠ .easingFn easeOutQuartE ∧
    easingsCatalog "toString" = none := by
  refine ⟨rfl, ?_, rfl⟩
  intro h
  rw [show getEasing (.strE "toString") = .protoFn "toString" from rfl] at h
  exact EasingFnVal.noConfusion h

/-- C7 as amended: `getEasing` is a total function (the lookup never throws):
a catalog name yields its catalog curve, a well-formed four-element custom
array yields the corresponding custom curve, and a falsy value, a
wrong-length array, any other malformed value, or an unrecognized name whose
indexed read is `undefined` yields the designated default curve
`easeOutQuart`; the exception is an unrecognized name that is an
`Object.prototype` property name (`toString`, `constructor`, `valueOf`, …),
for which the truthy inherited function is returned verbatim instead of the
default. -/
theorem C7_amended_easing_fallback :
    (∀ s f, easingsCatalog s = some f → getEasing (.strE s) = .easingFn f) ∧
    (∀ a b c d : ℚ, getEasing (.arrE [a, b, c, d]) = .easingFn (cubicBezier a b c d)) ∧
    (∀ s, easingsCatalog s = none → s ∈ objectProtoKeys →
      getEasing (.strE s) = .protoFn s) ∧
    (∀ s, easingsCatalog s = none → s ∉ objectProtoKeys →
      getEasing (.strE s) = .easingFn easeOutQuartE) ∧
    (∀ l : List ℚ, l.length ≠ 4 → getEasing (.arrE l) = .easingFn easeOutQuartE) ∧
    getEasing .nullE = .easingFn easeOutQuartE ∧
    getEasing .otherE = .easingFn easeOutQuartE := by
  refine ⟨?_, ?_, ?_, ?_, ?_, rfl, rfl⟩
  · intro s f h
    by_cases hs : s = ""
    · subst hs
      simp [easingsCatalog] at h
    · simp [getEasing, easingsGet, hs, h]
  · intro a b c d
    rfl
  · intro s hcat hmem
    have hs : s ≠ "" := by
      intro he
      subst he
      revert hmem
      decide
    simp [getEasing, easingsGet, hs, hcat, hmem]
  · intro s hcat hmem
    by_cases hs : s = ""
    · subst hs
      rfl
    · simp [getEasing, easingsGet, hs, hcat, hmem]
  · intro l h
    rcases l with _ | ⟨a, _ | ⟨b, _ | ⟨c, _ | ⟨d, _ | ⟨e, l⟩⟩⟩⟩⟩ <;>
      simp_all [getEasing]

/-- Witness for the amended C7: the prototype-inherited name `"toString"` is
returned verbatim while the genuinely unknown name `"bounce"` falls back to
the default curve. -/
theorem C7_amended_witness :
    getEasing (.strE "toString") = .protoFn "toString" ∧
    getEasing (.strE "bounce") = .easingFn easeOutQuartE :=
  ⟨C7_amended_easing_fallback.2.2.1 "toString" rfl (by decide),
   C7_amended_easing_fallback.2.2.2.1 "bounce" rfl (by decide)⟩

/-! ## Characterization lemmas for `update` -/

/-- A successful indexed read bounds the index. -/
theorem getIndexLt {l : List Transition} {i : ℕ} {tr : Transition}
    (h : l[i]? = some tr) : i < l.length := by
  rcases List.getElem?_eq_some.mp h with ⟨hlt, _⟩
  exact hlt

/-- `update` when the current transition is still in progress: progress
accumulates, the index, the from-pose and the color are untouched, and the
interpolated state is applied to the mesh. -/
theorem update_progress_spec (p : MovingPlatform) (delta : ℚ) (tr : Transition)
    (hget : p.transitions[p.currentTransitionIndex]? = some tr)
    (hlt : p.transitionProgress + delta / tr.duration < 1) :
    update p delta = some
      { p with
        elapsedTime := p.elapsedTime + delta
        transitionProgress := p.transitionProgress + delta / tr.duration
        mesh := applyState p.basePosition (interpolateStates p.currentState
          tr.targetState (p.transitionProgress + delta / tr.duration) tr.easings) } := by
  have hlen : ¬ p.transitions.length = 0 := by
    have := getIndexLt hget
    omega
  have hnot : ¬ (1 ≤ p.transitionProgress + delta / tr.duration) := not_le.mpr hlt
  simp only [update, hget, if_neg hlen, if_neg hnot]

/-- `update` when the current transition completes without wrapping: progress
resets to 0, the index advances by one, the completed transition's target
becomes the new from-pose, the next transition's target color is applied
instantly when resolvable, and the next transition's interpolation at
progress 0 is applied to the mesh. -/
theorem update_complete_nowrap_spec (p : MovingPlatform) (delta : ℚ) (tr trn : Transition)
    (hget : p.transitions[p.currentTransitionIndex]? = some tr)
    (hcomp : 1 ≤ p.transitionProgress + delta / tr.duration)
    (hnw : p.currentTransitionIndex + 1 < p.transitions.length)
    (hgetn : p.transitions[p.currentTransitionIndex + 1]? = some trn) :
    update p delta = some
      { p with
        elapsedTime := p.elapsedTime + delta
        transitionProgress := 0
        currentTransitionIndex := p.currentTransitionIndex + 1
        currentState := tr.targetState
        meshColor :=
          if trn.targetState.colorIndex ≠ none ∧ p.colorPalette.length > 0 then
            match getColorFromPalette p.colorPalette trn.targetState.colorIndex with
            | some c => some c
            | none => p.meshColor
          else p.meshColor
        mesh := applyState p.basePosition (interpolateStates tr.targetState
          trn.targetState 0 trn.easings) } := by
  have hlen : ¬ p.transitions.length = 0 := by
    have := getIndexLt hget
    omega
  have hw : ¬ (p.transitions.length ≤ p.currentTransitionIndex + 1) := by omega
  simp only [update, hget, if_neg hlen, if_pos hcomp, if_neg hw, hgetn]

/-- `update` when the current transition completes and the index wraps past
the last transition: progress resets to 0, the index wraps to 0, the
from-pose is reset to the start state, the first transition's target color is
applied instantly when resolvable, and the first transition's interpolation
at progress 0 is applied to the mesh. -/
theorem update_complete_wrap_spec (p : MovingPlatform) (delta : ℚ) (tr tr0 : Transition)
    (hget : p.transitions[p.currentTransitionIndex]? = some tr)
    (hcomp : 1 ≤ p.transitionProgress + delta / tr.duration)
    (hw : p.transitions.length ≤ p.currentTransitionIndex + 1)
    (hget0 : p.transitions[0]? = some tr0) :
    update p delta = some
      { p with
        elapsedTime := p.elapsedTime + delta
        transitionProgress := 0
        currentTransitionIndex := 0
        currentState := p.startState
        meshColor :=
          if tr0.targetState.colorIndex ≠ none ∧ p.colorPalette.length > 0 then
            match getColorFromPalette p.colorPalette tr0.targetState.colorIndex with
            | some c => some c
            | none => p.meshColor
          else p.meshColor
        mesh := applyState p.basePosition (interpolateStates p.startState
          tr0.targetState 0 tr0.easings) } := by
  have hlen : ¬ p.transitions.length = 0 := by
    have := getIndexLt hget
    omega
  simp only [update, hget, if_neg hlen, if_pos hcomp, if_pos hw, hget0]

/-- `update` on an instance without transitions is the identity. -/
theorem update_inert (p : MovingPlatform) (h : p.transitions = []) (d : ℚ) :
    update p d = some p := by
  simp [update, h]

/-- `updates` on an instance without transitions is the identity. -/
theorem updates_inert (p : MovingPlatform) (h : p.transitions = []) (ds : List ℚ) :
    updates p ds = some p := by
  induction ds with
  | nil => rfl
  | cons d ds ih => simp [updates, update_inert p h d, ih]

/-! ## Characterization lemmas for `parseTransitions` -/

/-- `parseTransitions` yields one parsed transition per definition, for every
running color accumulator. -/
theorem parseTransitionsGo_length (start : Pose) (spb : ℚ) :
    ∀ (specs : List TransitionSpec) (cci : Option ℤ),
      (parseTransitionsGo start spb cci specs).length = specs.length := by
  intro specs
  induction specs with
  | nil => intro cci; rfl
  | cons d rest ih =>
    intro cci
    simp only [parseTransitionsGo, List.length_cons, ih]

/-- Pointwise characterization of a parsed transition: its duration is the
`beats || 1` default times `secondsPerBeat`, and each transform part of its
target merges the definition's partial override onto the start state —
irrespective of the running color accumulator and of any earlier
transition. -/
theorem parseTransitionsGo_get (start : Pose) (spb : ℚ) :
    ∀ (specs : List TransitionSpec) (cci : Option ℤ) (i : ℕ)
      (d : TransitionSpec) (tr : Transition),
      specs[i]? = some d →
      (parseTransitionsGo start spb cci specs)[i]? = some tr →
      tr.duration = (match d.beats with
          | none => 1
          | some b => if b = 0 then 1 else b) * spb ∧
      tr.targetState.translate = mergeV3 start.translate (d.transforms.bind (·.translate)) ∧
      tr.targetState.scale = mergeV3 start.scale (d.transforms.bind (·.scale)) ∧
      tr.targetState.rotate = mergeV3 start.rotate (d.transforms.bind (·.rotate)) := by
  intro specs
  induction specs with
  | nil =>
    intro cci i d tr hd _
    simp at hd
  | cons d0 rest ih =>
    intro cci i d tr hd htr
    cases i with
    | zero =>
      simp only [List.getElem?_cons_zero, Option.some_inj] at hd
      simp only [parseTransitionsGo, List.getElem?_cons_zero, Option.some_inj] at htr
      subst hd
      subst htr
      exact ⟨rfl, rfl, rfl, rfl⟩
    | succ j =>
      simp only [List.getElem?_cons_succ] at hd
      simp only [parseTransitionsGo, List.getElem?_cons_succ] at htr
      exact ih _ j d tr hd htr

/-- Every parsed transition's target color index is either the incoming
running value or a value explicitly given by some transition definition of
the list: colors come verbatim from the configuration. -/
theorem parseTransitionsGo_colorIndex (start : Pose) (spb : ℚ) :
    ∀ (specs : List TransitionSpec) (cci : Option ℤ) (tr : Transition),
      tr ∈ parseTransitionsGo start spb cci specs →
      tr.targetState.colorIndex = cci ∨
      ∃ d ∈ specs, d.transforms.bind (·.colorIndex) = some tr.targetState.colorIndex := by
  intro specs
  induction specs with
  | nil =>
    intro cci tr h
    simp [parseTransitionsGo] at h
  | cons d0 rest ih =>
    intro cci tr h
    rcases List.mem_cons.mp h with hhead | htail
    · subst hhead
      cases hcol : d0.transforms.bind (·.colorIndex) with
      | none =>
        left
        simp only [parseTransitionsGo, hcol]
      | some v =>
        right
        refine ⟨d0, List.mem_cons_self d0 rest, ?_⟩
        simp only [parseTransitionsGo, hcol]
    · cases hcol : d0.transforms.bind (·.colorIndex) with
      | none =>
        simp only [parseTransitionsGo, hcol] at htail
        rcases ih cci tr htail with h1 | ⟨d, hmem, hval⟩
        · exact Or.inl h1
        · exact Or.inr ⟨d, List.mem_cons_of_mem d0 hmem, hval⟩
      | some v =>
        simp only [parseTransitionsGo, hcol] at htail
        rcases ih v tr htail with h1 | ⟨d, hmem, hval⟩
        · right
          refine ⟨d0, List.mem_cons_self d0 rest, ?_⟩
          rw [hcol, h1]
        · exact Or.inr ⟨d, List.mem_cons_of_mem d0 hmem, hval⟩

/-- An axis absent from a partial override is kept from the base vector. -/
theorem mergeV3_none_x (base : V3) (ov : Option PartialV3)
    (h : ov.bind (·.x) = none) : (mergeV3 base ov).x = base.x := by
  cases ov with
  | none => rfl
  | some q =>
    have hq : q.x = none := h
    simp [mergeV3, hq]

theorem mergeV3_none_y (base : V3) (ov : Option PartialV3)
    (h : ov.bind (·.y) = none) : (mergeV3 base ov).y = base.y := by
  cases ov with
  | none => rfl
  | some q =>
    have hq : q.y = none := h
    simp [mergeV3, hq]

theorem mergeV3_none_z (base : V3) (ov : Option PartialV3)
    (h : ov.bind (·.z) = none) : (mergeV3 base ov).z = base.z := by
  cases ov with
  | none => rfl
  | some q =>
    have hq : q.z = none := h
    simp [mergeV3, hq]

/-! ## Concrete fixtures -/

/-- The default pose: zero translate/rotate, unit scale, no color. -/
def poseA : Pose := ⟨⟨0, 0, 0⟩, ⟨1, 1, 1⟩, ⟨0, 0, 0⟩, none⟩

/-- A pose translated to x = 5. -/
def poseB : Pose := ⟨⟨5, 0, 0⟩, ⟨1, 1, 1⟩, ⟨0, 0, 0⟩, none⟩

/-- The linear easing curve. -/
def linE : ℚ → ℚ := cubicBezier 0 0 1 1

/-- Linear easing for all three transform types. -/
def es3 : Easings3 := ⟨linE, linE, linE⟩

/-- The per-type easings resolved from an absent `easing` field. -/
def es3abs : Easings3 :=
  ⟨resolveEasing .absent easingFieldTranslate,
   resolveEasing .absent easingFieldScale,
   resolveEasing .absent easingFieldRotate⟩

/-- A transition definition that only sets `translate.x = 5`. -/
def specTx5 : TransitionSpec :=
  { beats := none, easing := .absent,
    transforms := some { translate := some { x := some 5 } } }

/-- A transition definition that only sets `translate.y = 2`. -/
def specTy2 : TransitionSpec :=
  { beats := none, easing := .absent,
    transforms := some { translate := some { y := some 2 } } }

/-- A transition definition with `beats: 0` and nothing else. -/
def specBeats0 : TransitionSpec := ⟨some 0, .absent, none⟩

/-- A transition definition with `beats: -2` and nothing else. -/
def specBeatsNeg : TransitionSpec := ⟨some (-2), .absent, none⟩

/-! ## C1 : targets are relative to the start pose, not a running baseline -/

/-- C1 counterexample: with start pose `poseA` (translate `(0,0,0)`) and the
two transitions `[translate.x := 5, translate.y := 2]`, the second transition
leaves `x` unspecified, the first transition's resolved target has `x = 5`,
yet the second transition's resolved target has `x = 0` (the start pose's
value), not `5` (the previous transition's resolved target) — refuting the
claim that unspecified axes come from the running baseline. -/
theorem C1_running_baseline_counterexample :
    ((parseTransitions poseA (1/2) [specTx5, specTy2])[0]?.map
        (fun tr => tr.targetState.translate.x) = some 5) ∧
    ((parseTransitions poseA (1/2) [specTx5, specTy2])[1]?.map
        (fun tr => tr.targetState.translate.x) = some 0) ∧
    ((parseTransitions poseA (1/2) [specTx5, specTy2])[1]?.map
        (fun tr => tr.targetState.translate.x) ≠ some 5) ∧
    (specTy2.transforms.bind (·.translate)).bind (·.x) = none := by
  refine ⟨rfl, rfl, ?_, rfl⟩
  intro h
  have h0 : ((parseTransitions poseA (1/2) [specTx5, specTy2])[1]?.map
      (fun tr => tr.targetState.translate.x)) = some 0 := rfl
  rw [h0] at h
  have h5 : (0 : ℚ) = 5 := Option.some.inj h
  norm_num at h5

/-- C1 as amended: every transform axis left unspecified by a transition's
partial override takes the value of the corresponding axis of the ORIGINAL
resolved start pose (not of the previous transition's resolved target); only
`colorIndex` is carried forward as a running value. -/
theorem C1_amended_targets_relative_to_start (start : Pose) (spb : ℚ)
    (specs : List TransitionSpec) (i : ℕ) (d : TransitionSpec) (tr : Transition)
    (hd : specs[i]? = some d)
    (htr : (parseTransitions start spb specs)[i]? = some tr) :
    ((d.transforms.bind (·.translate)).bind (·.x) = none →
        tr.targetState.translate.x = start.translate.x) ∧
    ((d.transforms.bind (·.translate)).bind (·.y) = none →
        tr.targetState.translate.y = start.translate.y) ∧
    ((d.transforms.bind (·.translate)).bind (·.z) = none →
        tr.targetState.translate.z = start.translate.z) ∧
    ((d.transforms.bind (·.scale)).bind (·.x) = none →
        tr.targetState.scale.x = start.scale.x) ∧
    ((d.transforms.bind (·.scale)).bind (·.y) = none →
        tr.targetState.scale.y = start.scale.y) ∧
    ((d.transforms.bind (·.scale)).bind (·.z) = none →
        tr.targetState.scale.z = start.scale.z) ∧
    ((d.transforms.bind (·.rotate)).bind (·.x) = none →
        tr.targetState.rotate.x = start.rotate.x) ∧
    ((d.transforms.bind (·.rotate)).bind (·.y) = none →
        tr.targetState.rotate.y = start.rotate.y) ∧
    ((d.transforms.bind (·.rotate)).bind (·.z) = none →
        tr.targetState.rotate.z = start.rotate.z) := by
  obtain ⟨-, ht, hs, hr⟩ :=
    parseTransitionsGo_get start spb specs start.colorIndex i d tr hd htr
  refine ⟨fun h => ?_, fun h => ?_, fun h => ?_, fun h => ?_, fun h => ?_,
    fun h => ?_, fun h => ?_, fun h => ?_, fun h => ?_⟩
  · rw [ht]; exact mergeV3_none_x _ _ h
  · rw [ht]; exact mergeV3_none_y _ _ h
  · rw [ht]; exact mergeV3_none_z _ _ h
  · rw [hs]; exact mergeV3_none_x _ _ h
  · rw [hs]; exact mergeV3_none_y _ _ h
  · rw [hs]; exact mergeV3_none_z _ _ h
  · rw [hr]; exact mergeV3_none_x _ _ h
  · rw [hr]; exact mergeV3_none_y _ _ h
  · rw [hr]; exact mergeV3_none_z _ _ h

/-- The second transition parsed in the C1 scenario. -/
def trC1 : Transition :=
  ⟨1 * (1/2), ⟨⟨0, 2, 0⟩, ⟨1, 1, 1⟩, ⟨0, 0, 0⟩, none⟩, es3abs⟩

/-- Witness for the amended C1: in the two-transition scenario the second
transition leaves `translate.x` unspecified and its resolved target keeps the
start pose's `x`. -/
theorem C1_amended_witness : trC1.targetState.translate.x = poseA.translate.x :=
  (C1_amended_targets_relative_to_start poseA (1/2) [specTx5, specTy2] 1 specTy2 trC1
    rfl rfl).1 rfl

/-! ## C2 / C9 : no duration validation at construction -/

/-- Constructor options with a single `beats: 0` transition. -/
def opts20 : AnimOptions :=
  { bpm := none, colorPalette := [], startState := none, transitions := [specBeats0] }

/-- Constructor options with a single `beats: -2` transition. -/
def opts2n : AnimOptions :=
  { bpm := none, colorPalette := [], startState := none, transitions := [specBeatsNeg] }

/-- C2 counterexample: construction with `beats <= 0` does NOT fail — there is
no duration validation anywhere in the constructor.  With `beats: 0` an
animator instance is produced whose single transition has duration
`secondsPerBeat = 1/2` (the `beats || 1` default at bpm 120), and with
`beats: -2` an animator is produced whose transition has the negative
duration `-1`. -/
theorem C2_no_rejection_counterexample :
    (constructPlatform opts20 ⟨0, 0, 0⟩ none).transitions.length = 1 ∧
    ((constructPlatform opts20 ⟨0, 0, 0⟩ none).transitions[0]?.map (·.duration)
        = some (1/2 : ℚ)) ∧
    (constructPlatform opts2n ⟨0, 0, 0⟩ none).transitions.length = 1 ∧
    ((constructPlatform opts2n ⟨0, 0, 0⟩ none).transitions[0]?.map (·.duration)
        = some (-1 : ℚ)) := by
  refine ⟨rfl, ?_, rfl, ?_⟩ <;>
    norm_num [constructPlatform, parseTransitions, parseTransitionsGo, opts20, opts2n,
      specBeats0, specBeatsNeg]

/-- C2 as amended: construction performs no duration validation and always
produces an animator instance with exactly one parsed transition per
definition; every parsed duration is the `beats || 1` default (1 for an
absent or zero `beats`, the raw value otherwise — negative durations
included) times `secondsPerBeat`. -/
theorem C2_amended_construction_total (opts : AnimOptions) (basePosition : V3)
    (initialColor : Option RGB) (i : ℕ) (d : TransitionSpec) (tr : Transition)
    (hd : opts.transitions[i]? = some d)
    (htr : (constructPlatform opts basePosition initialColor).transitions[i]? = some tr) :
    (constructPlatform opts basePosition initialColor).transitions.length
        = opts.transitions.length ∧
    tr.duration = (match d.beats with
        | none => 1
        | some b => if b = 0 then 1 else b)
      * (constructPlatform opts basePosition initialColor).secondsPerBeat := by
  have hc : (constructPlatform opts basePosition initialColor).transitions
      = parseTransitionsGo (resolveStartState opts.startState)
          ((constructPlatform opts basePosition initialColor).secondsPerBeat)
          (resolveStartState opts.startState).colorIndex
          opts.transitions := rfl
  constructor
  · rw [hc]
    exact parseTransitionsGo_length _ _ _ _
  · rw [hc] at htr
    exact (parseTransitionsGo_get _ _ _ _ i d tr hd htr).1

/-- The transition parsed from `opts20`. -/
def tr20 : Transition := ⟨1 * ((60 : ℚ) / 120), poseA, es3abs⟩

/-- Witness for the amended C2 at the `beats: 0` configuration. -/
theorem C2_amended_witness :
    (constructPlatform opts20 ⟨0, 0, 0⟩ none).transitions.length = 1 ∧
    tr20.duration = (match specBeats0.beats with
        | none => 1
        | some b => if b = 0 then 1 else b)
      * (constructPlatform opts20 ⟨0, 0, 0⟩ none).secondsPerBeat :=
  C2_amended_construction_total opts20 ⟨0, 0, 0⟩ none 0 specBeats0 tr20 rfl rfl

/-- C9: a transition definition whose `beats` is absent or `0` (falsy) is
parsed with duration exactly one beat (`1 * secondsPerBeat`); a negative
`beats` is parsed verbatim, giving a negative duration whenever
`secondsPerBeat` is positive; in both cases parsing succeeds and yields one
transition per definition (no error is raised). -/
theorem C9_beats_defaulting (start : Pose) (spb : ℚ) (specs : List TransitionSpec)
    (i : ℕ) (d : TransitionSpec) (tr : Transition)
    (hd : specs[i]? = some d)
    (htr : (parseTransitions start spb specs)[i]? = some tr) :
    (d.beats = none ∨ d.beats = some 0 → tr.duration = 1 * spb) ∧
    (∀ b : ℚ, d.beats = some b → b < 0 →
      tr.duration = b * spb ∧ (0 < spb → tr.duration < 0)) ∧
    (parseTransitions start spb specs).length = specs.length := by
  obtain ⟨hdur, -, -, -⟩ :=
    parseTransitionsGo_get start spb specs start.colorIndex i d tr hd htr
  refine ⟨?_, ?_, parseTransitionsGo_length start spb specs start.colorIndex⟩
  · rintro (h | h)
    · rw [hdur, h]
    · rw [hdur, h]
      norm_num
  · intro b hb hneg
    have hne : ¬ (b = 0) := ne_of_lt hneg
    rw [hdur, hb]
    refine ⟨by simp [hne], fun hspb => ?_⟩
    simp only [if_neg hne]
    exact mul_neg_of_neg_of_pos hneg hspb

/-- The transition parsed from `[specBeats0]` at `secondsPerBeat = 1/2`. -/
def tr9 : Transition := ⟨1 * (1/2 : ℚ), poseA, es3abs⟩

/-- Witness for C9 at the `beats: 0` definition: duration is one beat and one
transition is parsed. -/
theorem C9_beats_defaulting_witness :
    tr9.duration = 1 * (1/2 : ℚ) ∧
    (parseTransitions poseA (1/2) [specBeats0]).length = 1 :=
  ⟨(C9_beats_defaulting poseA (1/2) [specBeats0] 0 specBeats0 tr9 rfl rfl).1 (Or.inr rfl),
   (C9_beats_defaulting poseA (1/2) [specBeats0] 0 specBeats0 tr9 rfl rfl).2.2⟩

/-! ## C4 / C5 / C8 / C10 : the advance state machine -/

/-- A transition of duration 1 toward `poseB` with linear easing. -/
def trA : Transition := ⟨1, poseB, es3⟩

/-- A transition of duration 1 back toward `poseA` with linear easing. -/
def trB : Transition := ⟨1, poseA, es3⟩

/-- A concrete two-transition animator instance at index 0, progress 0. -/
def pW : MovingPlatform :=
  { secondsPerBeat := 1/2
    colorPalette := []
    startState := poseA
    basePosition := ⟨0, 0, 0⟩
    transitions := [trA, trB]
    currentTransitionIndex := 0
    transitionProgress := 0
    elapsedTime := 0
    currentState := poseA
    mesh := applyState ⟨0, 0, 0⟩ poseA.transforms
    meshColor := none }

/-- C4: when an `update` call makes the accumulated progress reach or exceed
1, progress is reset to exactly 0 (the excess is discarded, not carried
over), and the index advances by one; when it passes the last transition it
wraps to 0 and the from-pose is reset to the start state, otherwise the
from-pose becomes the just-completed transition's target state. -/
theorem C4_completion_reset (p : MovingPlatform) (delta : ℚ) (tr : Transition)
    (hget : p.transitions[p.currentTransitionIndex]? = some tr)
    (hcomp : 1 ≤ p.transitionProgress + delta / tr.duration) :
    ∃ q, update p delta = some q ∧
      q.transitionProgress = 0 ∧
      ((p.currentTransitionIndex + 1 = p.transitions.length ∧
          q.currentTransitionIndex = 0 ∧ q.currentState = p.startState) ∨
       (p.currentTransitionIndex + 1 < p.transitions.length ∧
          q.currentTransitionIndex = p.currentTransitionIndex + 1 ∧
          q.currentState = tr.targetState)) := by
  have hi := getIndexLt hget
  by_cases hw : p.transitions.length ≤ p.currentTransitionIndex + 1
  · obtain ⟨tr0, hget0⟩ : ∃ tr0, p.transitions[0]? = some tr0 :=
      ⟨_, List.getElem?_eq_getElem (by omega)⟩
    exact ⟨_, update_complete_wrap_spec p delta tr tr0 hget hcomp hw hget0, rfl,
      Or.inl ⟨by omega, rfl, rfl⟩⟩
  · obtain ⟨trn, hgetn⟩ : ∃ trn, p.transitions[p.currentTransitionIndex + 1]? = some trn :=
      ⟨_, List.getElem?_eq_getElem (by omega)⟩
    exact ⟨_, update_complete_nowrap_spec p delta tr trn hget hcomp (by omega) hgetn, rfl,
      Or.inr ⟨by omega, rfl, rfl⟩⟩

/-- Witness for C4: the concrete instance `pW` advanced by `delta = 2`
(accumulated progress 2 ≥ 1) steps from index 0 to index 1 without wrapping,
with progress reset to 0 and the from-pose set to `trA`'s target. -/
theorem C4_completion_reset_witness :
    ∃ q, update pW 2 = some q ∧
      q.transitionProgress = 0 ∧
      ((pW.currentTransitionIndex + 1 = pW.transitions.length ∧
          q.currentTransitionIndex = 0 ∧ q.currentState = pW.startState) ∨
       (pW.currentTransitionIndex + 1 < pW.transitions.length ∧
          q.currentTransitionIndex = pW.currentTransitionIndex + 1 ∧
          q.currentState = trA.targetState)) :=
  C4_completion_reset pW 2 trA rfl (by norm_num [pW, trA])

/-- C5: an animator constructed with an empty transition list is permanently
inert — every sequence of `update` calls leaves the instance unchanged (and
cannot crash), and the pose applied to the mesh is, and therefore forever
remains, the resolved start pose. -/
theorem C5_empty_transitions_inert (opts : AnimOptions) (basePosition : V3)
    (initialColor : Option RGB) (ds : List ℚ)
    (hempty : opts.transitions = []) :
    updates (constructPlatform opts basePosition initialColor) ds
        = some (constructPlatform opts basePosition initialColor) ∧
    (constructPlatform opts basePosition initialColor).mesh
        = applyState basePosition (resolveStartState opts.startState).transforms ∧
    (constructPlatform opts basePosition initialColor).currentState
        = resolveStartState opts.startState := by
  have htr : (constructPlatform opts basePosition initialColor).transitions = [] := by
    have hc : (constructPlatform opts basePosition initialColor).transitions
        = parseTransitionsGo (resolveStartState opts.startState)
            ((constructPlatform opts basePosition initialColor).secondsPerBeat)
            (resolveStartState opts.startState).colorIndex
            opts.transitions := rfl
    rw [hc, hempty]
    rfl
  exact ⟨updates_inert _ htr ds, rfl, rfl⟩

/-- Constructor options with a start state but no transitions. -/
def opts5 : AnimOptions :=
  { bpm := none, colorPalette := [], transitions := []
    startState := some { translate := some { x := some 3 } } }

/-- Witness for C5: the concrete no-transition animator is unchanged by three
updates of assorted deltas. -/
theorem C5_empty_transitions_inert_witness :
    updates (constructPlatform opts5 ⟨0, 0, 0⟩ none) [1, 5, 1/3]
        = some (constructPlatform opts5 ⟨0, 0, 0⟩ none) ∧
    (constructPlatform opts5 ⟨0, 0, 0⟩ none).mesh
        = applyState ⟨0, 0, 0⟩ (resolveStartState opts5.startState).transforms ∧
    (constructPlatform opts5 ⟨0, 0, 0⟩ none).currentState
        = resolveStartState opts5.startState :=
  C5_empty_transitions_inert opts5 ⟨0, 0, 0⟩ none [1, 5, 1/3] rfl

/-- C10: one `update` call, for ANY delta however large, either leaves the
index unchanged (accumulating progress) or advances it exactly one step
modulo the transition count with progress reset to 0; the index invariant is
preserved and the call cannot crash (it always returns an instance). -/
theorem C10_at_most_one_step (p : MovingPlatform) (delta : ℚ) (tr : Transition)
    (hget : p.transitions[p.currentTransitionIndex]? = some tr) :
    ∃ q, update p delta = some q ∧
      q.currentTransitionIndex < p.transitions.length ∧
      ((q.currentTransitionIndex = p.currentTransitionIndex ∧
          q.transitionProgress = p.transitionProgress + delta / tr.duration) ∨
       (q.currentTransitionIndex = (p.currentTransitionIndex + 1) % p.transitions.length ∧
          q.transitionProgress = 0)) := by
  have hi := getIndexLt hget
  by_cases hcomp : 1 ≤ p.transitionProgress + delta / tr.duration
  · by_cases hw : p.transitions.length ≤ p.currentTransitionIndex + 1
    · obtain ⟨tr0, hget0⟩ : ∃ tr0, p.transitions[0]? = some tr0 :=
        ⟨_, List.getElem?_eq_getElem (by omega)⟩
      refine ⟨_, update_complete_wrap_spec p delta tr tr0 hget hcomp hw hget0,
        show (0 : ℕ) < p.transitions.length by omega, Or.inr ⟨?_, rfl⟩⟩
      have he : p.currentTransitionIndex + 1 = p.transitions.length := by omega
      rw [he, Nat.mod_self]
    · obtain ⟨trn, hgetn⟩ : ∃ trn, p.transitions[p.currentTransitionIndex + 1]? = some trn :=
        ⟨_, List.getElem?_eq_getElem (by omega)⟩
      refine ⟨_, update_complete_nowrap_spec p delta tr trn hget hcomp (by omega) hgetn,
        show p.currentTransitionIndex + 1 < p.transitions.length by omega, Or.inr ⟨?_, rfl⟩⟩
      rw [Nat.mod_eq_of_lt (by omega)]
  · exact ⟨_, update_progress_spec p delta tr hget (not_le.mp hcomp),
      hi, Or.inl ⟨rfl, rfl⟩⟩

/-- Witness for C10: a huge delta (1000) on the concrete instance `pW` still
advances the index by exactly one step. -/
theorem C10_at_most_one_step_witness :
    ∃ q, update pW 1000 = some q ∧
      q.currentTransitionIndex < pW.transitions.length ∧
      ((q.currentTransitionIndex = pW.currentTransitionIndex ∧
          q.transitionProgress = pW.transitionProgress + 1000 / trA.duration) ∨
       (q.currentTransitionIndex = (pW.currentTransitionIndex + 1) % pW.transitions.length ∧
          q.transitionProgress = 0)) :=
  C10_at_most_one_step pW 1000 trA rfl

/-- C8: color is a step function of the update sequence — an `update` call
that does not complete the current transition leaves the mesh color
untouched, and in every case the mesh color is either unchanged or set (at a
transition boundary, instantly) to the palette color of some parsed
transition's target color index; moreover every parsed target color index is
the start pose's or one given verbatim in the configuration, never an
interpolated value (the interpolation result `TransformPose` carries no color
at all). -/
theorem C8_color_discrete (p : MovingPlatform) (delta : ℚ) (tr : Transition)
    (hget : p.transitions[p.currentTransitionIndex]? = some tr) :
    (∃ q, update p delta = some q ∧
      (p.transitionProgress + delta / tr.duration < 1 → q.meshColor = p.meshColor) ∧
      (q.meshColor = p.meshColor ∨
        ∃ (j : ℕ) (trj : Transition), p.transitions[j]? = some trj ∧
          q.meshColor = getColorFromPalette p.colorPalette trj.targetState.colorIndex)) ∧
    (∀ (start : Pose) (spb : ℚ) (specs : List TransitionSpec) (t : Transition),
      t ∈ parseTransitions start spb specs →
      t.targetState.colorIndex = start.colorIndex ∨
      ∃ d ∈ specs, d.transforms.bind (·.colorIndex) = some t.targetState.colorIndex) := by
  refine ⟨?_, fun start spb specs t ht =>
    parseTransitionsGo_colorIndex start spb specs start.colorIndex t ht⟩
  by_cases hcomp : 1 ≤ p.transitionProgress + delta / tr.duration
  · have himp : p.transitionProgress + delta / tr.duration < 1 → False :=
      fun h => not_le.mpr h hcomp
    by_cases hw : p.transitions.length ≤ p.currentTransitionIndex + 1
    · obtain ⟨tr0, hget0⟩ : ∃ tr0, p.transitions[0]? = some tr0 :=
        ⟨_, List.getElem?_eq_getElem (by have := getIndexLt hget; omega)⟩
      refine ⟨_, update_complete_wrap_spec p delta tr tr0 hget hcomp hw hget0,
        fun h => (himp h).elim, ?_⟩
      dsimp only
      split
      · split
        · next c heq => exact Or.inr ⟨0, tr0, hget0, heq.symm⟩
        · exact Or.inl rfl
      · exact Or.inl rfl
    · obtain ⟨trn, hgetn⟩ : ∃ trn, p.transitions[p.currentTransitionIndex + 1]? = some trn :=
        ⟨_, List.getElem?_eq_getElem (by omega)⟩
      refine ⟨_, update_complete_nowrap_spec p delta tr trn hget hcomp (by omega) hgetn,
        fun h => (himp h).elim, ?_⟩
      dsimp only
      split
      · split
        · next c heq => exact Or.inr ⟨p.currentTransitionIndex + 1, trn, hgetn, heq.symm⟩
        · exact Or.inl rfl
      · exact Or.inl rfl
  · exact ⟨_, update_progress_spec p delta tr hget (not_le.mp hcomp),
      fun _ => rfl, Or.inl rfl⟩

/-- Witness for C8: the concrete instance `pW` advanced by `delta = 1/4`. -/
theorem C8_color_discrete_witness :
    (∃ q, update pW (1/4) = some q ∧
      (pW.transitionProgress + (1/4) / trA.duration < 1 → q.meshColor = pW.meshColor) ∧
      (q.meshColor = pW.meshColor ∨
        ∃ (j : ℕ) (trj : Transition), pW.transitions[j]? = some trj ∧
          q.meshColor = getColorFromPalette pW.colorPalette trj.targetState.colorIndex)) ∧
    (∀ (start : Pose) (spb : ℚ) (specs : List TransitionSpec) (t : Transition),
      t ∈ parseTransitions start spb specs →
      t.targetState.colorIndex = start.colorIndex ∨
      ∃ d ∈ specs, d.transforms.bind (·.colorIndex) = some t.targetState.colorIndex) :=
  C8_color_discrete pW (1/4) trA rfl
